import Mathlib

/-!
Verification of the FIT-profile field-type code generator
(`generate-fit-profile/src/field_types.rs`).

The source is a code generator: each function there emits Rust source text for
a generated enum (one case per declared variant plus a fallback case carrying
the raw `base_type` value) and for a master registry (`FieldDataType`) with
three dispatch functions.  The shallow embedding below models the *semantics of
the emitted code*, parameterized by the schema entry (`FieldTypeDefintion`,
spelling as in the source) it was generated from:

* `FieldTypeDefintion.from_base`   — the generated `impl From<base_type>`
  (`field_type_enum_impl_from`): a first-match scan over the declared variant
  values with a catch-all arm returning the fallback case.
* `GenValue.as_base` / `FieldTypeDefintion.as_i64` — the generated
  `as_<base_type>` / `as_i64` accessors (`field_type_enum_as_type`).
* `FieldTypeDefintion.display`     — the generated `fmt::Display`
  (`field_type_enum_impl_display`).
* `FieldTypeDefintion.serialize`   — the generated `Serialize`
  (`field_type_enum_impl_serialize`); its output is either a string or a raw
  number tagged with the base-type-specific serializer method.
* `field_type_enum`                — the per-definition generator output,
  abstracted to `Option GeneratedEnum` (`none` models the empty token stream
  returned for an empty `variant_map`).
* `main_enum_tags`, `FieldDataType.is_enum_type`,
  `FieldDataType.is_named_variant`, `get_field_variant_as_string` — the master
  registry (`generate_main_field_type_enum`).

Machine integers are modeled as `Int` with explicit wrapping where the Rust
`as` casts wrap (`BaseType.cast_from_i64`, `BaseType.cast_to_i64`).
-/

namespace FitGen

/-- The Rust scalar types that can appear as `base_type` of a generated enum.
Only the integer types are modeled: the generated code (`value as #base_type`
casts, bare integer literals in match arms) only compiles for integer base
types. -/
inductive BaseType where
  | u8 | i8 | u16 | i16 | u32 | i32 | u64 | i64
deriving DecidableEq, Repr

/-- Bit width of a base type. -/
def BaseType.width : BaseType → Nat
  | .u8 | .i8 => 8
  | .u16 | .i16 => 16
  | .u32 | .i32 => 32
  | .u64 | .i64 => 64

/-- Whether the base type is a signed integer type. -/
def BaseType.isSigned : BaseType → Bool
  | .i8 | .i16 | .i32 | .i64 => true
  | _ => false

/-- Whether an integer is representable in the base type. -/
def BaseType.in_range (bt : BaseType) (v : Int) : Bool :=
  if bt.isSigned then
    decide (-(2 ^ (bt.width - 1)) ≤ v) && decide (v < 2 ^ (bt.width - 1))
  else
    decide (0 ≤ v) && decide (v < 2 ^ bt.width)

/-- Rust `value as #base_type` for an `i64` value: a wrapping (two's
complement truncating) cast, as generated by `field_type_enum_impl_from` for
the `From<i64>` impl. -/
def BaseType.cast_from_i64 (bt : BaseType) (v : Int) : Int :=
  if bt.isSigned then
    (v + 2 ^ (bt.width - 1)) % 2 ^ bt.width - 2 ^ (bt.width - 1)
  else
    v % 2 ^ bt.width

/-- Rust `value as i64` for a value of the base type (in the base type's
range): exact for every modeled type except `u64`, where values at or above
`2^63` wrap to negative `i64` values. Generated by `field_type_enum_as_type`
for `as_i64`. -/
def BaseType.cast_to_i64 (bt : BaseType) (v : Int) : Int :=
  if bt = .u64 then (if v < 2 ^ 63 then v else v - 2 ^ 64) else v

/-- Modelled from the spec: the schema-side variant record is defined in the
absent `parse` module; §3 of the spec gives its fields (display `name`, case
identifier `ident`, 64-bit integer `value`, optional `comment`). -/
structure FieldTypeVariant where
  name : String
  ident : String
  value : Int
  comment : Option String
deriving DecidableEq, Repr

/-- Modelled from the spec: the schema-side field-type record is defined in
the absent `parse` module; §3 of the spec gives its fields.  `variant_map` is
an insertion-ordered map from the `i64` value to the variant; since the map
key is the variant's own value it is represented here as the ordered list of
variants (`keys()` = `variant_map.map (·.value)`, `values()` = `variant_map`).
`ident` (the generated type identifier) and `other_value_field_name` (the
fallback-case identifier) are accessor methods of the absent module, modeled
as fields. -/
structure FieldTypeDefintion where
  name : String
  ident : String
  base_type : BaseType
  comment : Option String
  other_value_field_name : String
  variant_map : List FieldTypeVariant
deriving DecidableEq, Repr

/-- Modelled from the spec: `is_true_enum` is a method of the absent `parse`
module; §4.3: a definition's type is classified as a true enum unless its
name is in the fixed denylist of time-valued types, which the registry
builder (`generate_main_field_type_enum`) spells out as
`{date_time, local_date_time}`. -/
def FieldTypeDefintion.is_true_enum (ft : FieldTypeDefintion) : Bool :=
  !(ft.name == "date_time" || ft.name == "local_date_time")

/-- A value of the generated enum for one definition: one case per declared
variant (identified by the variant record it was generated from) plus the
fallback case carrying a raw `base_type` value. -/
inductive GenValue where
  | named (w : FieldTypeVariant)
  | other (v : Int)
deriving DecidableEq, Repr

/-- The generated `is_named_variant` (`field_type_enum_is_named_variant`): a
match of the `i64` argument against the declared variant values
(`variant_map().keys()`), `true` on any arm, `false` on the default arm. -/
def FieldTypeDefintion.is_named_variant (ft : FieldTypeDefintion) (value : Int) : Bool :=
  ft.variant_map.any (fun w => w.value == value)

/-- The generated `impl From<base_type>` (`field_type_enum_impl_from`): match
the value against the declared variant values in declaration order (Rust
match arms test top to bottom, so the first match wins), and on the default
arm return the fallback case carrying the value unmodified. -/
def FieldTypeDefintion.from_base (ft : FieldTypeDefintion) (value : Int) : GenValue :=
  match ft.variant_map.find? (fun w => w.value == value) with
  | some w => .named w
  | none => .other value

/-- The generated `as_<base_type>` (`field_type_enum_as_type`): a named case
returns its declared value (emitted as a bare literal), the fallback case
returns its payload. -/
def GenValue.as_base : GenValue → Int
  | .named w => w.value
  | .other v => v

/-- The generated `impl From<i64>` (`field_type_enum_impl_from`):
`#ident::from(value as #base_type)`. -/
def FieldTypeDefintion.from_i64 (ft : FieldTypeDefintion) (value : Int) : GenValue :=
  ft.from_base (ft.base_type.cast_from_i64 value)

/-- The generated `as_i64` (`field_type_enum_as_type`):
`self.as_<base_type>() as i64`. -/
def FieldTypeDefintion.as_i64 (ft : FieldTypeDefintion) (x : GenValue) : Int :=
  ft.base_type.cast_to_i64 x.as_base

/-- The generated `fmt::Display` (`field_type_enum_impl_display`): a named
case writes its declared name; the fallback case writes
`unknown_variant_<value>` when the definition is a true enum and the bare
decimal value otherwise. -/
def FieldTypeDefintion.display (ft : FieldTypeDefintion) : GenValue → String
  | .named w => w.name
  | .other v => if ft.is_true_enum then "unknown_variant_" ++ toString v else toString v

/-- Output of the generated `Serialize` impl: either a string
(`serializer.serialize_str`) or a raw number emitted through the
base-type-specific method `serializer.serialize_<base_type>`. -/
inductive SerValue where
  | str (s : String)
  | num (bt : BaseType) (v : Int)
deriving DecidableEq, Repr

/-- The generated `Serialize` impl (`field_type_enum_impl_serialize`): a true
enum always serializes as its display string; otherwise the fallback case
serializes its raw payload with `serialize_<base_type>` and every other case
serializes as its display string. -/
def FieldTypeDefintion.serialize (ft : FieldTypeDefintion) (x : GenValue) : SerValue :=
  if ft.is_true_enum then .str (ft.display x)
  else
    match x with
    | .other v => .num ft.base_type v
    | .named w => .str (ft.display (.named w))

/-- The shape of one generated enum declaration (`field_type_enum` emits the
enum plus its impls): the type identifier, the declared cases in declaration
order, the fallback case identifier and its payload type. -/
structure GeneratedEnum where
  ident : String
  variants : List FieldTypeVariant
  other_value_field : String
  base_type : BaseType
deriving DecidableEq, Repr

/-- The per-definition generator (`field_type_enum`): an empty `variant_map`
produces an empty token stream (`none`); otherwise the enum declaration is
emitted. -/
def field_type_enum (ft : FieldTypeDefintion) : Option GeneratedEnum :=
  if ft.variant_map.isEmpty then none
  else some ⟨ft.ident, ft.variant_map, ft.other_value_field_name, ft.base_type⟩

/-- The fixed list of base scalar tags of the master `FieldDataType` enum
(`generate_main_field_type_enum`, `base_types`). -/
def base_type_tags : List String :=
  ["Bool", "SInt8", "UInt8", "SInt16", "UInt16", "SInt32", "UInt32", "String",
   "Float32", "Float64", "UInt8z", "UInt16z", "UInt32z", "Byte", "SInt64",
   "UInt64", "UInt64z"]

/-- The tag list of the generated master `FieldDataType` enum: the fixed base
scalar tags followed by one tag per field-type definition (the `variants`
iterator in `generate_main_field_type_enum` maps over the full, unfiltered
definition list). -/
def main_enum_tags (fts : List FieldTypeDefintion) : List String :=
  base_type_tags ++ fts.map (·.ident)

/-- The hardcoded denylist built in `generate_main_field_type_enum`
(`is_enum_force_false`). -/
def is_enum_force_false (n : String) : Bool :=
  n == "date_time" || n == "local_date_time"

/-- The filter applied to the dispatch match arms in
`generate_main_field_type_enum` (`filtered_field_types`): the definition has
at least one variant and its name is not denylisted. -/
def dispatch_included (f : FieldTypeDefintion) : Bool :=
  !f.variant_map.isEmpty && !is_enum_force_false f.name

/-- A tag value of the master `FieldDataType` enum: one of the fixed base
scalar tags, or the tag generated for the definition at a given catalog
index.  (In the emitted Rust the tags are identifiers; a compiling catalog
has pairwise distinct `ident`s, so positions and identifiers are in
bijection and the index faithfully identifies the match arm.) -/
inductive FieldDataType where
  | base (name : String)
  | generated (idx : Nat)
deriving DecidableEq, Repr

/-- The generated `FieldDataType::is_enum_type`: one `=> true` arm per
definition passing `dispatch_included`, default arm `false`. -/
def FieldDataType.is_enum_type (fts : List FieldTypeDefintion) : FieldDataType → Bool
  | .generated idx =>
    match fts[idx]? with
    | some f => dispatch_included f
    | none => false
  | .base _ => false

/-- The generated `FieldDataType::is_named_variant`: one
`=> #i::is_named_variant(value)` arm per definition passing
`dispatch_included`, default arm `false`. -/
def FieldDataType.is_named_variant (fts : List FieldTypeDefintion) :
    FieldDataType → Int → Bool
  | .generated idx, value =>
    (match fts[idx]? with
    | some f => if dispatch_included f then f.is_named_variant value else false
    | none => false)
  | .base _, _ => false

/-- The generated free function `get_field_variant_as_string`: one
`=> #i::from(value).to_string()` arm per definition passing
`dispatch_included`, default arm `format!("Undefined{}", value)`. -/
def get_field_variant_as_string (fts : List FieldTypeDefintion)
    (field_type : FieldDataType) (value : Int) : String :=
  match field_type with
  | .generated idx =>
    (match fts[idx]? with
    | some f =>
      if dispatch_included f then f.display (f.from_i64 value)
      else "Undefined" ++ toString value
    | none => "Undefined" ++ toString value)
  | .base _ => "Undefined" ++ toString value

/-! ### Concrete sample definitions (spec §8 scenarios) used in witnesses -/

/-- The spec's concrete scenario: `display_measure`, base `u16`, true-enum,
variants `{0: metric, 1: statute}`. -/
def display_measure : FieldTypeDefintion :=
  { name := "display_measure", ident := "DisplayMeasure", base_type := .u16,
    comment := none, other_value_field_name := "UnknownValue",
    variant_map := [⟨"metric", "Metric", 0, none⟩, ⟨"statute", "Statute", 1, none⟩] }

/-- A denylisted (non-true-enum) definition: `date_time`, base `u32`, one
variant `{268435456: min}` (the FIT profile's `date_time` entry). -/
def date_time_def : FieldTypeDefintion :=
  { name := "date_time", ident := "DateTime", base_type := .u32,
    comment := none, other_value_field_name := "UnknownValue",
    variant_map := [⟨"min", "Min", 268435456, none⟩] }

/-- A definition with an empty `variant_map`. -/
def empty_def : FieldTypeDefintion :=
  { name := "activity_class", ident := "ActivityClass", base_type := .u8,
    comment := none, other_value_field_name := "UnknownValue",
    variant_map := [] }

/-- A definition whose base type is `u64`, used to probe the `i64`
round-trip casts. -/
def u64_def : FieldTypeDefintion :=
  { name := "wide_type", ident := "WideType", base_type := .u64,
    comment := none, other_value_field_name := "UnknownValue",
    variant_map := [⟨"zero", "Zero", 0, none⟩] }

/-! ### Helper lemmas about the first-match scan -/

lemma value_eq_of_find? {l : List FieldTypeVariant} {v : Int} {w : FieldTypeVariant}
    (h : l.find? (fun u => u.value == v) = some w) : w.value = v := by
  have := List.find?_some h
  simpa using this

lemma find?_eq_none_of_not_mem {l : List FieldTypeVariant} {v : Int}
    (h : v ∉ l.map (·.value)) : l.find? (fun u => u.value == v) = none := by
  rw [List.find?_eq_none]
  intro w hw hbeq
  exact h (List.mem_map.mpr ⟨w, hw, by simpa using hbeq⟩)

lemma find?_of_nodup {l : List FieldTypeVariant}
    (hnd : (l.map (·.value)).Nodup) {w : FieldTypeVariant} (hw : w ∈ l) :
    l.find? (fun u => u.value == w.value) = some w := by
  induction l with
  | nil => cases hw
  | cons a rest ih =>
    rw [List.map_cons, List.nodup_cons] at hnd
    rcases List.mem_cons.mp hw with h | h
    · subst h
      exact List.find?_cons_of_pos _ (by simp)
    · have hav : (a.value == w.value) = false := by
        rw [beq_eq_false_iff_ne]
        intro hval
        exact hnd.1 (hval ▸ List.mem_map_of_mem (·.value) h)
      have hstep : List.find? (fun u => u.value == w.value) (a :: rest) =
          List.find? (fun u => u.value == w.value) rest :=
        List.find?_cons_of_neg rest (by simp [hav])
      rw [hstep]
      exact ih hnd.2 h

/-- `from_base` on a value absent from the variant map yields the fallback
case carrying that value. -/
lemma from_base_of_not_mem {ft : FieldTypeDefintion} {v : Int}
    (h : v ∉ ft.variant_map.map (·.value)) : ft.from_base v = .other v := by
  unfold FieldTypeDefintion.from_base
  rw [find?_eq_none_of_not_mem h]

/-- Constructing from a base-type value and reading it back returns the
value: the matched named case returns its declared value (which equals the
scrutinee), the fallback case returns its payload. -/
lemma as_base_from_base (ft : FieldTypeDefintion) (v : Int) :
    (ft.from_base v).as_base = v := by
  unfold FieldTypeDefintion.from_base
  cases hf : ft.variant_map.find? (fun w => w.value == v) with
  | some w => exact value_eq_of_find? hf
  | none => rfl

/-! ### Claim theorems -/

/-- C1: for every definition with at least one variant, the generated
`From<base_type>` construction is a total function on values: it scans the
declared variants for an exact value match and returns the matching named
case, and on no match it returns the fallback case carrying the original
value unmodified.  Being a total Lean function of the value, it can neither
fail nor panic; the disjunction shows every input falls in one of the two
branches. -/
theorem from_base_total_scan (ft : FieldTypeDefintion) (h : ft.variant_map ≠ [])
    (v : Int) :
    (∃ w, w ∈ ft.variant_map ∧ w.value = v ∧ ft.from_base v = .named w) ∨
    ((∀ w ∈ ft.variant_map, w.value ≠ v) ∧ ft.from_base v = .other v) := by
  cases hf : ft.variant_map.find? (fun w => w.value == v) with
  | some w =>
    left
    refine ⟨w, List.mem_of_find?_eq_some hf, value_eq_of_find? hf, ?_⟩
    unfold FieldTypeDefintion.from_base
    rw [hf]
  | none =>
    right
    constructor
    · intro w hw hval
      have := List.find?_eq_none.mp hf w hw
      simp [hval] at this
    · unfold FieldTypeDefintion.from_base
      rw [hf]

theorem from_base_total_scan_witness :
    display_measure.variant_map ≠ [] ∧
    ((∃ w, w ∈ display_measure.variant_map ∧ w.value = 7 ∧
        display_measure.from_base 7 = .named w) ∨
     ((∀ w ∈ display_measure.variant_map, w.value ≠ 7) ∧
        display_measure.from_base 7 = .other 7)) :=
  ⟨by decide, from_base_total_scan display_measure (by decide) 7⟩

/-- C2: for every definition with at least one variant and every value in the
base type's range, constructing via the generated `From<base_type>` and then
reading back with the generated `as_<base_type>` returns exactly the input,
for named and fallback cases alike. -/
theorem from_then_as_base_roundtrip (ft : FieldTypeDefintion)
    (h1 : ft.variant_map ≠ []) (v : Int)
    (h2 : ft.base_type.in_range v = true) :
    (ft.from_base v).as_base = v := by
  exact as_base_from_base ft v

theorem from_then_as_base_roundtrip_witness :
    display_measure.variant_map ≠ [] ∧ BaseType.u16.in_range 1 = true ∧
    (display_measure.from_base 1).as_base = 1 :=
  ⟨by decide, by decide,
    from_then_as_base_roundtrip display_measure (by decide) 1 (by decide)⟩

/-- C3: constructing from a value absent from the variant map yields the
fallback case; for a true-enum-classified definition its display string and
serialized form are both the string `unknown_variant_<v>`, otherwise its
display string is the bare decimal rendering of `v` and it serializes as the
raw number through the base-type-specific serializer method. -/
theorem unknown_value_fallback (ft : FieldTypeDefintion) (v : Int)
    (h : v ∉ ft.variant_map.map (·.value)) :
    (ft.is_true_enum = true →
      ft.display (ft.from_base v) = "unknown_variant_" ++ toString v ∧
      ft.serialize (ft.from_base v) = .str ("unknown_variant_" ++ toString v)) ∧
    (ft.is_true_enum = false →
      ft.display (ft.from_base v) = toString v ∧
      ft.serialize (ft.from_base v) = .num ft.base_type v) := by
  rw [from_base_of_not_mem h]
  constructor
  · intro ht
    simp [FieldTypeDefintion.display, FieldTypeDefintion.serialize, ht]
  · intro ht
    simp [FieldTypeDefintion.display, FieldTypeDefintion.serialize, ht]

theorem unknown_value_fallback_witness :
    ((7 : Int) ∉ display_measure.variant_map.map (·.value) ∧
      display_measure.is_true_enum = true ∧
      display_measure.display (display_measure.from_base 7) = "unknown_variant_7" ∧
      display_measure.serialize (display_measure.from_base 7) =
        .str "unknown_variant_7") ∧
    ((20 : Int) ∉ date_time_def.variant_map.map (·.value) ∧
      date_time_def.is_true_enum = false ∧
      date_time_def.display (date_time_def.from_base 20) = "20" ∧
      date_time_def.serialize (date_time_def.from_base 20) = .num .u32 20) :=
  ⟨⟨by decide, by decide,
      ((unknown_value_fallback display_measure 7 (by decide)).1 (by decide)).1,
      ((unknown_value_fallback display_measure 7 (by decide)).1 (by decide)).2⟩,
    ⟨by decide, by decide,
      ((unknown_value_fallback date_time_def 20 (by decide)).2 (by decide)).1,
      ((unknown_value_fallback date_time_def 20 (by decide)).2 (by decide)).2⟩⟩

/-- C4: for every declared variant with value `v` and name `n`, constructing
from `v` yields a case whose display string equals `n` exactly.  The
hypothesis is the schema invariant of spec §3 (variant values are unique
within one definition); without it the generated match is first-match-wins,
as §4.1 notes for the duplicate-value edge case. -/
theorem named_value_fidelity (ft : FieldTypeDefintion)
    (hnd : (ft.variant_map.map (·.value)).Nodup)
    (w : FieldTypeVariant) (hw : w ∈ ft.variant_map) :
    ft.display (ft.from_base w.value) = w.name := by
  unfold FieldTypeDefintion.from_base
  rw [find?_of_nodup hnd hw]
  rfl

theorem named_value_fidelity_witness :
    (display_measure.variant_map.map (·.value)).Nodup ∧
    (⟨"statute", "Statute", 1, none⟩ : FieldTypeVariant) ∈ display_measure.variant_map ∧
    display_measure.display (display_measure.from_base 1) = "statute" :=
  ⟨by decide, by decide,
    named_value_fidelity display_measure (by decide) ⟨"statute", "Statute", 1, none⟩
      (by decide)⟩

/-- C5 counterexample: the claim says no umbrella tag exists for a
definition with an empty `variant_map`, but the `variants` iterator in
`generate_main_field_type_enum` maps over the unfiltered definition list, so
the tag for `empty_def` is a member of the umbrella tag list even though its
`variant_map` is empty (and its tag is not one of the base scalar tags). -/
theorem empty_def_tag_exists :
    empty_def.variant_map = [] ∧
    "ActivityClass" ∈ main_enum_tags [empty_def] ∧
    "ActivityClass" ∉ base_type_tags :=
  ⟨rfl, by decide, by decide⟩

/-- C5 (amended): the `FieldDataType` umbrella contains exactly the fixed
base scalar tags plus one tag per `FieldTypeDefintion` of the catalog —
including definitions with an empty `variant_map`; the empty-variant filter
applies only to the dispatch match arms, so an empty-variant definition's tag
is never enum-classified. -/
theorem main_enum_tag_membership (fts : List FieldTypeDefintion) :
    (∀ s, s ∈ main_enum_tags fts ↔ s ∈ base_type_tags ∨ ∃ f ∈ fts, f.ident = s) ∧
    (∀ idx f, fts[idx]? = some f → f.variant_map = [] →
      FieldDataType.is_enum_type fts (.generated idx) = false) := by
  constructor
  · intro s
    simp [main_enum_tags, List.mem_append, List.mem_map]
  · intro idx f hidx hemp
    simp [FieldDataType.is_enum_type, hidx, dispatch_included, hemp]

theorem main_enum_tag_membership_witness :
    (([empty_def])[0]? = some empty_def ∧ empty_def.variant_map = []) ∧
    FieldDataType.is_enum_type [empty_def] (.generated 0) = false :=
  ⟨⟨rfl, rfl⟩, (main_enum_tag_membership [empty_def]).2 0 empty_def rfl rfl⟩

/-- C6: for a definition with at least one variant, the single true-enum
classification (its name is not in the fixed denylist; `is_true_enum` is
modelled from spec §4.3, the registry spells the same denylist out as
`is_enum_force_false`) determines the registry dispatch — `is_enum_type` and
the delegation of the other two dispatch functions — and the type's own
fallback formatting/serialization policy; the two never disagree. -/
theorem classification_coherence (fts : List FieldTypeDefintion) (idx : Nat)
    (ft : FieldTypeDefintion) (hidx : fts[idx]? = some ft)
    (hne : ft.variant_map ≠ []) :
    FieldDataType.is_enum_type fts (.generated idx) = ft.is_true_enum ∧
    (∀ v, FieldDataType.is_named_variant fts (.generated idx) v =
      (ft.is_true_enum && ft.is_named_variant v)) ∧
    (∀ v, get_field_variant_as_string fts (.generated idx) v =
      if ft.is_true_enum then ft.display (ft.from_i64 v)
      else "Undefined" ++ toString v) ∧
    (∀ v, ft.is_true_enum = true →
      ft.serialize (.other v) = .str ("unknown_variant_" ++ toString v)) ∧
    (∀ v, ft.is_true_enum = false →
      ft.serialize (.other v) = .num ft.base_type v) := by
  have hemp : ft.variant_map.isEmpty = false := by
    simpa [List.isEmpty_iff] using hne
  have hdi : dispatch_included ft = ft.is_true_enum := by
    simp [dispatch_included, is_enum_force_false, FieldTypeDefintion.is_true_enum, hemp]
  refine ⟨?_, fun v => ?_, fun v => ?_, fun v ht => ?_, fun v ht => ?_⟩
  · simp [FieldDataType.is_enum_type, hidx, hdi]
  · cases hte : ft.is_true_enum <;>
      simp [FieldDataType.is_named_variant, hidx, hdi, hte]
  · cases hte : ft.is_true_enum <;>
      simp [get_field_variant_as_string, hidx, hdi, hte]
  · simp [FieldTypeDefintion.serialize, FieldTypeDefintion.display, ht]
  · simp [FieldTypeDefintion.serialize, ht]

theorem classification_coherence_witness :
    (([date_time_def])[0]? = some date_time_def ∧
      date_time_def.variant_map ≠ []) ∧
    FieldDataType.is_enum_type [date_time_def] (.generated 0) =
      date_time_def.is_true_enum :=
  ⟨⟨rfl, by decide⟩,
    (classification_coherence [date_time_def] 0 date_time_def rfl (by decide)).1⟩

/-- C7: a definition with zero variants produces no generated sum type (the
per-definition generator emits nothing), and its registry tag is never
enum-classified: `is_enum_type` is false, `is_named_variant` is false for
every value, and `get_field_variant_as_string` takes the default placeholder
branch. -/
theorem empty_variant_suppression (ft : FieldTypeDefintion)
    (h : ft.variant_map = []) :
    field_type_enum ft = none ∧
    ∀ (fts : List FieldTypeDefintion) (idx : Nat), fts[idx]? = some ft →
      FieldDataType.is_enum_type fts (.generated idx) = false ∧
      (∀ v, FieldDataType.is_named_variant fts (.generated idx) v = false) ∧
      (∀ v, get_field_variant_as_string fts (.generated idx) v =
        "Undefined" ++ toString v) := by
  have hdi : dispatch_included ft = false := by
    simp [dispatch_included, h]
  refine ⟨by simp [field_type_enum, h], fun fts idx hidx => ?_⟩
  refine ⟨?_, fun v => ?_, fun v => ?_⟩ <;>
    simp [FieldDataType.is_enum_type, FieldDataType.is_named_variant,
      get_field_variant_as_string, hidx, hdi]

theorem empty_variant_suppression_witness :
    empty_def.variant_map = [] ∧ field_type_enum empty_def = none ∧
    FieldDataType.is_enum_type [empty_def] (.generated 0) = false :=
  ⟨rfl, (empty_variant_suppression empty_def rfl).1,
    ((empty_variant_suppression empty_def rfl).2 [empty_def] 0 rfl).1⟩

/-- C8: `get_field_variant_as_string` is total over the whole tag space: for
an enum-classified tag it constructs the type's value from the raw number via
the generated `From<i64>` and returns its display string, and for every other
tag — base scalar tags, non-classified generated tags, and indices naming no
definition — it returns the synthesized placeholder embedding the raw
value. -/
theorem get_field_variant_as_string_total (fts : List FieldTypeDefintion)
    (t : FieldDataType) (v : Int) :
    (FieldDataType.is_enum_type fts t = true ∧
      ∃ idx f, t = .generated idx ∧ fts[idx]? = some f ∧
        get_field_variant_as_string fts t v = f.display (f.from_i64 v)) ∨
    (FieldDataType.is_enum_type fts t = false ∧
      get_field_variant_as_string fts t v = "Undefined" ++ toString v) := by
  cases t with
  | base name => exact Or.inr ⟨rfl, rfl⟩
  | generated idx =>
    cases hidx : fts[idx]? with
    | none =>
      right
      simp [FieldDataType.is_enum_type, get_field_variant_as_string, hidx]
    | some f =>
      cases hdi : dispatch_included f with
      | true =>
        left
        refine ⟨by simp [FieldDataType.is_enum_type, hidx, hdi], idx, f, rfl, hidx, ?_⟩
        simp [get_field_variant_as_string, hidx, hdi]
      | false =>
        right
        simp [FieldDataType.is_enum_type, get_field_variant_as_string, hidx, hdi]

/-- C9: the per-type `is_named_variant` is a pure lookup — true iff the value
is one of the declared variant values, independent of construction — and the
registry-level `is_named_variant` delegates to the per-type function exactly
on enum-classified tags and returns false on every other tag. -/
theorem is_named_variant_characterization (fts : List FieldTypeDefintion)
    (t : FieldDataType) (v : Int) :
    (∀ ft : FieldTypeDefintion,
      ft.is_named_variant v = true ↔ v ∈ ft.variant_map.map (·.value)) ∧
    (FieldDataType.is_enum_type fts t = true →
      ∃ idx f, t = .generated idx ∧ fts[idx]? = some f ∧
        FieldDataType.is_named_variant fts t v = f.is_named_variant v) ∧
    (FieldDataType.is_enum_type fts t = false →
      FieldDataType.is_named_variant fts t v = false) := by
  refine ⟨fun ft => ?_, ?_, ?_⟩
  · unfold FieldTypeDefintion.is_named_variant
    constructor
    · intro h
      rcases List.any_eq_true.mp h with ⟨w, hw, hbeq⟩
      exact List.mem_map.mpr ⟨w, hw, by simpa using hbeq⟩
    · intro h
      rcases List.mem_map.mp h with ⟨w, hw, hval⟩
      exact List.any_eq_true.mpr ⟨w, hw, by simp [hval]⟩
  · intro ht
    cases t with
    | base name => simp [FieldDataType.is_enum_type] at ht
    | generated idx =>
      cases hidx : fts[idx]? with
      | none => simp [FieldDataType.is_enum_type, hidx] at ht
      | some f =>
        have hdi : dispatch_included f = true := by
          simpa [FieldDataType.is_enum_type, hidx] using ht
        refine ⟨idx, f, rfl, hidx, ?_⟩
        simp [FieldDataType.is_named_variant, hidx, hdi]
  · intro ht
    cases t with
    | base name => rfl
    | generated idx =>
      cases hidx : fts[idx]? with
      | none => simp [FieldDataType.is_named_variant, hidx]
      | some f =>
        have hdi : dispatch_included f = false := by
          simpa [FieldDataType.is_enum_type, hidx] using ht
        simp [FieldDataType.is_named_variant, hidx, hdi]

theorem is_named_variant_characterization_witness :
    FieldDataType.is_enum_type [display_measure] (.generated 0) = true ∧
    ∃ idx f, (FieldDataType.generated 0) = FieldDataType.generated idx ∧
      ([display_measure])[idx]? = some f ∧
      FieldDataType.is_named_variant [display_measure] (.generated 0) 1 =
        f.is_named_variant 1 :=
  ⟨by decide,
    (is_named_variant_characterization [display_measure] (.generated 0) 1).2.1
      (by decide)⟩

/-! ### Cast lemmas for the `i64` round trip -/

lemma cast_from_i64_in_range (bt : BaseType) (v : Int) :
    bt.in_range (bt.cast_from_i64 v) = true := by
  cases bt <;>
    simp [BaseType.in_range, BaseType.cast_from_i64, BaseType.isSigned,
      BaseType.width] <;>
    omega

lemma cast_to_i64_of_width_lt {bt : BaseType} (h : bt.width < 64) (v : Int) :
    bt.cast_to_i64 v = v := by
  cases bt <;> try rfl
  exact absurd h (by simp [BaseType.width])

lemma cast_roundtrip_width64 (bt : BaseType) (h : bt.width = 64) (v : Int)
    (hv : BaseType.i64.in_range v = true) :
    bt.cast_to_i64 (bt.cast_from_i64 v) = v := by
  have hv' : -(2 ^ 63) ≤ v ∧ v < 2 ^ 63 := by
    simpa [BaseType.in_range, BaseType.isSigned, BaseType.width] using hv
  have e63 : (2 : Int) ^ 63 = 9223372036854775808 := by norm_num
  have e64 : (2 : Int) ^ 64 = 18446744073709551616 := by norm_num
  rw [e63] at hv'
  cases bt <;> simp [BaseType.width] at h <;>
    simp [BaseType.cast_from_i64, BaseType.cast_to_i64, BaseType.isSigned,
      BaseType.width, e63, e64] <;>
    omega

/-- C10 counterexample: for base type `u64` the two wrapping casts compose to
the identity on `i64`, so the `From<i64>` / `as_i64` round trip on the
out-of-range input `-1` returns the original value `-1`, contradicting the
claim's "not the original value". -/
theorem i64_roundtrip_counterexample :
    BaseType.u64.in_range (-1) = false ∧
    u64_def.base_type = BaseType.u64 ∧
    u64_def.as_i64 (u64_def.from_i64 (-1)) = -1 :=
  ⟨by decide, rfl, by decide⟩

/-- C10 (amended): construction from `i64` is the wrapping cast to the base
type followed by construction from the base type, and `as_i64` is
`as_<base_type>` followed by the cast back to `i64`; the `i64` round trip
therefore returns the input wrapped to the base type's width (modulo `2^w`
for `w`-bit unsigned base types).  For base types narrower than 64 bits this
differs from any input outside the base type's range; for the two 64-bit base
types the casts compose to the identity on `i64`, so the original value is
returned even when — as for a negative input with base `u64` — it lies
outside the base type's range. -/
theorem i64_roundtrip_wraps (ft : FieldTypeDefintion) (v : Int) :
    ft.from_i64 v = ft.from_base (ft.base_type.cast_from_i64 v) ∧
    (∀ x, ft.as_i64 x = ft.base_type.cast_to_i64 x.as_base) ∧
    ft.as_i64 (ft.from_i64 v) =
      ft.base_type.cast_to_i64 (ft.base_type.cast_from_i64 v) ∧
    (ft.base_type.width < 64 → ft.base_type.in_range v = false →
      ft.as_i64 (ft.from_i64 v) ≠ v) ∧
    (ft.base_type.width = 64 → BaseType.i64.in_range v = true →
      ft.as_i64 (ft.from_i64 v) = v) := by
  have hcomp : ft.as_i64 (ft.from_i64 v) =
      ft.base_type.cast_to_i64 (ft.base_type.cast_from_i64 v) := by
    unfold FieldTypeDefintion.as_i64 FieldTypeDefintion.from_i64
    rw [as_base_from_base]
  refine ⟨rfl, fun x => rfl, hcomp, ?_, ?_⟩
  · intro hw hout
    rw [hcomp, cast_to_i64_of_width_lt hw]
    intro heq
    have hin := cast_from_i64_in_range ft.base_type v
    rw [heq, hout] at hin
    cases hin
  · intro hw hv
    rw [hcomp]
    exact cast_roundtrip_width64 ft.base_type hw v hv

theorem i64_roundtrip_wraps_witness :
    (display_measure.base_type.width < 64 ∧
      display_measure.base_type.in_range 70000 = false ∧
      display_measure.as_i64 (display_measure.from_i64 70000) ≠ 70000) ∧
    (u64_def.base_type.width = 64 ∧ BaseType.i64.in_range (-1) = true ∧
      u64_def.as_i64 (u64_def.from_i64 (-1)) = -1) :=
  ⟨⟨by decide, by decide,
      (i64_roundtrip_wraps display_measure 70000).2.2.2.1 (by decide) (by decide)⟩,
    ⟨rfl, by decide,
      (i64_roundtrip_wraps u64_def (-1)).2.2.2.2 rfl (by decide)⟩⟩

end FitGen
